import Mathlib

/- A verification model of the kodi-douban local scraper server
   (src/local-server/kodi-douban-scraper-2in1.py).  Python strings are
   modelled as `List Char`.  The standard-library operations the program
   relies on (str.lower, str.replace, str.find, str.strip, str.split,
   int(), and re.search on the fixed season/episode pattern) are modelled
   character by character; str.lower and int() are modelled on the ASCII
   fragment the program manipulates (no Unicode case folding, no
   underscore digit separators). -/

namespace Scraper

/-- Model of Python `str.lower` on one character (ASCII case folding;
the numeral glyphs and punctuation the program handles are unaffected
by `lower`). -/
def asciiLowerChar (c : Char) : Char :=
  if 'A' ≤ c ∧ c ≤ 'Z' then Char.ofNat (c.toNat + 32) else c

/-- Whitespace as recognised by Python `str.strip()` / `str.split()`
(ASCII whitespace characters). -/
def isPySpace (c : Char) : Bool :=
  c == ' ' || c == '\t' || c == '\n' || c == '\r' || c == '\x0b' || c == '\x0c'

/-- The `.replace(' ', '.')` step of `get_title_from_filename`, per character. -/
def spaceToDot (c : Char) : Char :=
  if c = ' ' then '.' else c

/-- The `.replace('.', ' ')` step of `get_title_from_filename`, per character. -/
def dotToSpace (c : Char) : Char :=
  if c = '.' then ' ' else c

/-- Numeric value of a digit run, as computed by Python `int` on a string
of decimal digits. -/
def digitsToNat (ds : List Char) : Nat :=
  ds.foldl (fun acc c => 10 * acc + (c.toNat - 48)) 0

/-- Helper for `pyInt`: value of an unsigned digit run, `none` when the
run is empty or contains a non-digit. -/
def digitsVal (ds : List Char) : Option Nat :=
  if ds ≠ [] ∧ ds.all Char.isDigit then some (digitsToNat ds) else none

/-- Model of Python `int(s)` on a whitespace-free token: an optional sign
followed by a non-empty run of decimal digits; anything else raises
`ValueError`, modelled as `none`. -/
def pyInt : List Char → Option Int
  | '+' :: ds => (digitsVal ds).map (fun n => (n : Int))
  | '-' :: ds => (digitsVal ds).map (fun n => -(n : Int))
  | ds => (digitsVal ds).map (fun n => (n : Int))

/-- Does `pat` occur at the head of `s`?  (Substring matching step of
Python `str.find`.) -/
def leadsList : List Char → List Char → Bool
  | [], _ => true
  | _ :: _, [] => false
  | a :: as, b :: bs => a == b && leadsList as bs

/-- Worker for `findSub`, tracking the current index. -/
def findSubAux (pat : List Char) : List Char → Nat → Option Nat
  | [], i => if pat = [] then some i else none
  | b :: bs, i =>
    if leadsList pat (b :: bs) then some i else findSubAux pat bs (i + 1)

/-- Model of Python `s.find(pat)`: index of the leftmost occurrence,
`none` standing for the `-1` not-found result. -/
def findSub (pat s : List Char) : Option Nat :=
  findSubAux pat s 0

/-- Attempt to match the compiled pattern `\.s([0-9]+)(e([0-9]+))?` at the
head of `l`, returning the season digit run and the optional episode
digit run.  The `+` quantifiers are greedy and `e` cannot match a digit,
so maximal-munch digit runs are exactly what the regex engine yields. -/
def matchSE (l : List Char) : Option (List Char × Option (List Char)) :=
  match l with
  | '.' :: 's' :: rest =>
    let ds := rest.takeWhile Char.isDigit
    if ds = [] then none
    else
      match rest.dropWhile Char.isDigit with
      | 'e' :: rest2 =>
        let es := rest2.takeWhile Char.isDigit
        if es = [] then some (ds, none) else some (ds, some es)
      | _ => some (ds, none)
  | _ => none

/-- Model of `REGEX_SEASON_EPISODE.search`: the leftmost position where
the pattern matches, together with the match's groups. -/
def searchSE : List Char → Nat → Option (Nat × (List Char × Option (List Char)))
  | [], _ => none
  | c :: tl, i =>
    match matchSE (c :: tl) with
    | some g => some (i, g)
    | none => searchSE tl (i + 1)

/-- Worker for `pySplit`; `acc` holds the reversed current token. -/
def pySplitAux : List Char → List Char → List (List Char)
  | [], acc =>
    match acc with
    | [] => []
    | _ => [acc.reverse]
  | c :: cs, acc =>
    if isPySpace c then
      match acc with
      | [] => pySplitAux cs []
      | _ => acc.reverse :: pySplitAux cs []
    else pySplitAux cs (c :: acc)

/-- Model of Python `str.split()` with no argument: split on runs of
whitespace, discarding empty pieces. -/
def pySplit (s : List Char) : List (List Char) :=
  pySplitAux s []

/-- Model of Python `str.strip()`: remove leading and trailing whitespace. -/
def pyStrip (s : List Char) : List Char :=
  ((s.dropWhile isPySpace).reverse.dropWhile isPySpace).reverse

/-- Model of Python `' '.join` / `'.'.join` over token lists. -/
def joinSep (sep : Char) : List (List Char) → List Char
  | [] => []
  | t :: ts =>
    match ts with
    | [] => t
    | _ :: _ => t ++ sep :: joinSep sep ts

/-- The `CLEAR_SUFFIX` table of release-metadata tokens, in source order. -/
def CLEAR_SUFFIX : List (List Char) :=
  ["repack".toList, "unrated".toList,
   "480p".toList, "720p".toList, "1080i".toList, "1080p".toList, "4k".toList,
   "web".toList, "web-dl".toList, "bluray".toList, "blu-ray".toList, "hdtv".toList,
   "dd5.1".toList, "dts".toList, "ddp5.1".toList, "avc".toList,
   "x264".toList, "x.264".toList, "h264".toList, "h.264".toList]

/-- Step 1 of `get_title_from_filename`:
`name = filename.lower().replace(' ', '.')`. -/
def normName (filename : List Char) : List Char :=
  (filename.map asciiLowerChar).map spaceToDot

/-- The regex search `REGEX_SEASON_EPISODE.search(name)` of
`get_title_from_filename`. -/
def seSearch (filename : List Char) : Option (Nat × (List Char × Option (List Char))) :=
  searchSE (normName filename) 0

/-- The `season` result: `int` of the first group when the regex matched. -/
def seasonOf (filename : List Char) : Option Nat :=
  (seSearch filename).map (fun x => digitsToNat x.2.1)

/-- The `episode` result: `int` of the third group when the regex matched
and the optional `e<digits>` part was present (`if episode:` is true
exactly when the captured digit run is non-empty). -/
def episodeOf (filename : List Char) : Option Nat :=
  (seSearch filename).bind (fun x => x.2.2.map digitsToNat)

/-- `end` after the regex stage: `min(len(name), match.start())` when the
regex matched, `len(name)` otherwise. -/
def cutAfterRegex (filename : List Char) : Nat :=
  match seSearch filename with
  | some x => min (normName filename).length x.1
  | none => (normName filename).length

/-- `end` after the `CLEAR_SUFFIX` loop: fold `end = min(end, idx)` over
every table token found in `name`. -/
def truncEnd (filename : List Char) : Nat :=
  CLEAR_SUFFIX.foldl
    (fun e suf =>
      match findSub suf (normName filename) with
      | some idx => min e idx
      | none => e)
    (cutAfterRegex filename)

/-- `split = name[:end].replace('.', ' ').strip().split()`. -/
def tokensOf (filename : List Char) : List (List Char) :=
  pySplit (pyStrip (((normName filename).take (truncEnd filename)).map dotToSpace))

/-- The `year` local of `get_title_from_filename`: the integer parse of
the last token, attempted only when more than one token remains.  Note
the source returns this value even when it lies outside 1900..2100. -/
def rawYear (filename : List Char) : Option Int :=
  if 1 < (tokensOf filename).length then
    ((tokensOf filename).getLast?).bind pyInt
  else none

/-- The token list used for the title: the last token is dropped exactly
when `year is not None and 1900 <= year <= 2100`. -/
def keptTokens (filename : List Char) : List (List Char) :=
  match rawYear filename with
  | some y => if 1900 ≤ y ∧ y ≤ 2100 then (tokensOf filename).dropLast else tokensOf filename
  | none => tokensOf filename

/-- The tuple returned by `get_title_from_filename`. -/
structure Parsed where
  title : List Char
  year : Option Int
  season : Option Nat
  episode : Option Nat
  deriving DecidableEq, Repr

/-- Model of `get_title_from_filename` (the FilenameNormalizer). -/
def get_title_from_filename (filename : List Char) : Parsed :=
  { title := joinSep ' ' (keptTokens filename)
    year := rawYear filename
    season := seasonOf filename
    episode := episodeOf filename }

/-- The `DIGITS_TO_CHINESE_NUMBER` table: the eleven single glyphs for
0..10 followed by the nine ten-prefixed compounds for 11..19. -/
def DIGITS_TO_CHINESE_NUMBER : List (List Char) :=
  (['零', '一', '二', '三', '四', '五', '六', '七', '八', '九', '十'].map
    (fun c => [c])) ++
  (['一', '二', '三', '四', '五', '六', '七', '八', '九'].map
    (fun c => ['十', c]))

/-- The season marker `'第{}季'.format(DIGITS_TO_CHINESE_NUMBER[n])`,
with a default for the out-of-range case (the in-range side is what the
theorems use; the out-of-range indexing itself is modelled in the
ranking loop, where it raises). -/
def markerFor (n : Nat) : List Char :=
  '第' :: (DIGITS_TO_CHINESE_NUMBER.getD n []) ++ ['季']

/-- Model of Python `pat in s` substring membership. -/
def subMem (pat s : List Char) : Bool :=
  (findSub pat s).isSome

/-- One candidate record from the upstream search response, restricted to
the two fields the ranking loop reads: `title`, and `year` (a string
field that may be absent from the payload). -/
structure Subject where
  title : List Char
  year : Option (List Char)
  deriving DecidableEq, Repr

/-- The `int(subject['year'])` attempt of the ranking loop: a missing
field or an unparseable string both land in the bare `except` and give
`None`. -/
def subjectYearOf (s : Subject) : Option Int :=
  s.year.bind pyInt

/-- The keep/skip decision of the ranking loop: the candidate is skipped
(`continue`) exactly when
`not (subject_year is None or year is None or subject_year-1 <= year <= subject_year+1)`. -/
def keepSubject (year : Option Int) (s : Subject) : Bool :=
  match subjectYearOf s, year with
  | some sy, some y => decide (sy - 1 ≤ y ∧ y ≤ sy + 1)
  | _, _ => true

/-- One iteration of the ranking loop of `GetSearchResults` acting on the
deque `dq`: skip filtered candidates; with a season present, index
`DIGITS_TO_CHINESE_NUMBER[season]` (out of range raises `IndexError`,
modelled as `none`), build the marker, and `appendleft` on a title match,
`append` otherwise. -/
def rankStep (year : Option Int) (season : Option Nat) (dq : List Subject)
    (s : Subject) : Option (List Subject) :=
  if keepSubject year s then
    match season with
    | none => some (dq ++ [s])
    | some n =>
      match DIGITS_TO_CHINESE_NUMBER.get? n with
      | none => none
      | some g =>
        if subMem ('第' :: g ++ ['季']) s.title then some (s :: dq)
        else some (dq ++ [s])
  else some dq

/-- The ranking loop of `GetSearchResults` over the candidate list,
threading the deque; the first `IndexError` aborts the request. -/
def douRankLoop (year : Option Int) (season : Option Nat) :
    List Subject → List Subject → Option (List Subject)
  | dq, [] => some dq
  | dq, s :: rest =>
    match rankStep year season dq s with
    | none => none
    | some dq2 => douRankLoop year season dq2 rest

/-- The filter-and-partition step of `GetSearchResults` (the
ResultRanker): the deque starts empty and the final deque is the ranked
candidate list; `none` models the `IndexError` escaping the handler. -/
def douRank (year : Option Int) (season : Option Nat)
    (subjects : List Subject) : Option (List Subject) :=
  douRankLoop year season [] subjects

/-- Is the candidate kept and carrying the season marker (destined for
`appendleft`)? -/
def isFrontFor (year : Option Int) (n : Nat) (s : Subject) : Bool :=
  keepSubject year s && subMem (markerFor n) s.title

/-- Is the candidate kept and without the season marker (destined for
`append`)? -/
def isBackFor (year : Option Int) (n : Nat) (s : Subject) : Bool :=
  keepSubject year s && !subMem (markerFor n) s.title

/-- The persisted sqlite state of the server: the `cache` table (unique
string keys, string values) and the `stats` table (unique string keys,
integer values), both modelled as association lists. -/
structure CacheState where
  cache : List (String × String)
  stats : List (String × Int)
  deriving DecidableEq, Repr

/-- The state right after `get_db` runs its initialisation script on a
fresh database file: both tables exist and hold no rows (in particular,
no seed rows for the counters). -/
def initState : CacheState :=
  { cache := [], stats := [] }

/-- `SELECT value FROM <table> WHERE key=?` on a unique-key table. -/
def lookupTab {β : Type} (tab : List (String × β)) (k : String) : Option β :=
  (tab.find? (fun p => p.1 == k)).map (fun p => p.2)

/-- `UPDATE stats SET value=value+1 WHERE key=?`: bump every row whose
key matches; when no row matches, the statement changes nothing. -/
def bumpStat (stats : List (String × Int)) (k : String) : List (String × Int) :=
  stats.map (fun p => if p.1 == k then (p.1, p.2 + 1) else p)

/-- `INSERT OR REPLACE INTO cache (key, value) VALUES (?, ?)` on a
unique-key table: any conflicting row is deleted and the new row is
inserted (sqlite REPLACE semantics). -/
def upsert (tab : List (String × String)) (k v : String) : List (String × String) :=
  (tab.filter (fun p => !(p.1 == k))) ++ [(k, v)]

/-- The outcome of the `func()` network call: a successfully decoded
response payload, or a raised exception (network error, non-success
status, malformed body). -/
inductive FetchResult (α : Type) where
  | ok (a : α)
  | err
  deriving DecidableEq

/-- One payload encoding of `cache_get`.  The `type` string selects one
of two encode/decode pairs from the standard library — `'json'` pairs
`json.dumps` with `json.loads`, `'bytes'` pairs `base64.encodebytes`
with `base64.decodebytes`; the third `'str'` branch is unreachable dead
code behind the `assert type in ['json', 'bytes']`.  The pair is
modelled as an explicit parameter over the payload type. -/
structure Encoding (α : Type) where
  encode : α → String
  decode : String → α

/-- What one `cache_get` call produced: the returned value (or the
propagated exception), the committed database state after the call, and
how many times `func` was invoked. -/
structure CacheResult (α : Type) where
  result : Except Unit α
  state : CacheState
  fetches : Nat

/-- Model of `cache_get`.  The hit branch commits both counter updates
and returns the decoded stored value; the miss branch invokes `func`
once, and on success commits the query-counter update together with the
upsert of the encoded value; when `func` raises, the exception
propagates and the connection is closed without commit, so the
uncommitted counter update is rolled back and the committed state is
unchanged. -/
def cache_get {α : Type} (enc : Encoding α) (st : CacheState) (key : String)
    (func : Unit → FetchResult α) : CacheResult α :=
  let stats1 := bumpStat st.stats "num_query"
  match lookupTab st.cache key with
  | some v =>
    { result := Except.ok (enc.decode v)
      state := { st with stats := bumpStat stats1 "num_hit" }
      fetches := 0 }
  | none =>
    match func () with
    | FetchResult.err =>
      { result := Except.error (), state := st, fetches := 1 }
    | FetchResult.ok a =>
      { result := Except.ok a
        state := { cache := upsert st.cache key (enc.encode a), stats := stats1 }
        fetches := 1 }

theorem lookupTab_bumpStat_self (stats : List (String × Int)) (k : String) :
    lookupTab (bumpStat stats k) k = (lookupTab stats k).map (fun n => n + 1) := by
  induction stats with
  | nil => rfl
  | cons p ps ih =>
    simp only [bumpStat, lookupTab, List.map_cons, List.find?]
    by_cases h : p.1 == k
    · simp [h]
    · simp only [Bool.not_eq_true] at h
      simp only [h, Bool.false_eq_true, if_false]
      simpa [bumpStat, lookupTab, h] using ih

theorem lookupTab_bumpStat_ne (stats : List (String × Int)) (k' k : String)
    (h : k' ≠ k) :
    lookupTab (bumpStat stats k') k = lookupTab stats k := by
  induction stats with
  | nil => rfl
  | cons p ps ih =>
    simp only [bumpStat, lookupTab, List.map_cons, List.find?]
    by_cases hp : p.1 == k'
    · have hp' : p.1 = k' := by simpa using hp
      have : (p.1 == k) = false := by simp [hp', h]
      simp only [hp, if_true, this]
      simpa [bumpStat, lookupTab] using ih
    · simp only [Bool.not_eq_true] at hp
      simp only [hp, Bool.false_eq_true, if_false]
      by_cases hk : p.1 == k
      · simp [List.find?, hk]
      · simp only [Bool.not_eq_true] at hk
        simp only [List.find?, hk]
        simpa [bumpStat, lookupTab] using ih

theorem lookupTab_upsert_self (tab : List (String × String)) (k v : String) :
    lookupTab (upsert tab k v) k = some v := by
  induction tab with
  | nil => simp [upsert, lookupTab, List.find?]
  | cons p ps ih =>
    simp only [upsert, List.filter_cons] at *
    by_cases hp : p.1 == k
    · simp only [hp, Bool.not_true, Bool.false_eq_true, if_false]
      exact ih
    · simp only [Bool.not_eq_true] at hp
      simp only [hp, Bool.not_false, if_true, List.cons_append]
      simp [lookupTab, List.find?, hp, ih]

theorem lookupTab_upsert_ne (tab : List (String × String)) (k v key : String)
    (h : key ≠ k) :
    lookupTab (upsert tab k v) key = lookupTab tab key := by
  induction tab with
  | nil =>
    have : (k == key) = false := by simp [Ne.symm h]
    simp [upsert, lookupTab, List.find?, this]
  | cons p ps ih =>
    simp only [upsert, List.filter_cons] at *
    by_cases hp : p.1 == k
    · have hp' : p.1 = k := by simpa using hp
      have hkey : (p.1 == key) = false := by simp [hp', Ne.symm h]
      simp only [hp, Bool.not_true, Bool.false_eq_true, if_false]
      rw [ih]
      simp [lookupTab, List.find?, hkey]
    · simp only [Bool.not_eq_true] at hp
      simp only [hp, Bool.not_false, if_true, List.cons_append]
      by_cases hk : p.1 == key
      · simp [lookupTab, List.find?, hk]
      · simp only [Bool.not_eq_true] at hk
        simpa [lookupTab, List.find?, hk] using ih

/-- C8: FilenameNormalizer maps the three literal example inputs to
exactly the listed outputs. -/
theorem C8_literal_examples :
    get_title_from_filename "Kingsman.The.Secret.Service.2014.UNRATED.720p.BluRay.DD5.1.x264-PuTao".toList =
      { title := "kingsman the secret service".toList, year := some 2014,
        season := none, episode := none } ∧
    get_title_from_filename "Sense8.S00E02.Amor.Vincit.Omnia.1080p.NF.WEB-DL.DD5.1.x264-NTb.mkv".toList =
      { title := "sense8".toList, year := none, season := some 0, episode := some 2 } ∧
    get_title_from_filename "".toList =
      { title := "".toList, year := none, season := none, episode := none } :=
  ⟨by decide, by decide, by decide⟩

/-- C1 counterexample: on input `foo.3000` the last token parses to 3000,
which is outside 1900..2100, yet the returned year is `some 3000` rather
than absent (the source keeps the token in the title but never resets
the `year` local to `None`). -/
theorem C1_counterexample :
    (get_title_from_filename "foo.3000".toList).year = some 3000 ∧
    ¬ ((1900 : Int) ≤ 3000 ∧ (3000 : Int) ≤ 2100) ∧
    (get_title_from_filename "foo.3000".toList).title = "foo 3000".toList :=
  ⟨by decide, by decide, by decide⟩

/-- C2 counterexample: with season 1 present and two distinct candidates
both carrying the marker, the ranked output is the reverse of the input
order, so the front part does not preserve relative input order. -/
theorem C2_counterexample :
    douRank none (some 1)
        [{ title := "a第一季".toList, year := none },
         { title := "b第一季".toList, year := none }] =
      some [{ title := "b第一季".toList, year := none },
            { title := "a第一季".toList, year := none }] ∧
    ¬ douRank none (some 1)
        [{ title := "a第一季".toList, year := none },
         { title := "b第一季".toList, year := none }] =
      some [{ title := "a第一季".toList, year := none },
            { title := "b第一季".toList, year := none }] :=
  ⟨by decide, by decide⟩

/-- C4 counterexample: from the state produced by initialisation the
stats table has no rows, so a lookup leaves no `num_query` counter at
all — it does not increase by 1. -/
theorem C4_counterexample :
    lookupTab initState.stats "num_query" = none ∧
    (cache_get { encode := id, decode := id } initState "k"
        (fun _ => FetchResult.ok "v")).state.stats = [] ∧
    lookupTab (cache_get { encode := id, decode := id } initState "k"
        (fun _ => FetchResult.ok "v")).state.stats "num_query" = none :=
  ⟨rfl, rfl, rfl⟩

/-- C6 counterexample: on input `a.1999.2000` the title is `a 1999`;
re-running the normalizer on that title drops the token 1999 as a year,
yielding a different title and a present year. -/
theorem C6_counterexample :
    (get_title_from_filename "a.1999.2000".toList).title = "a 1999".toList ∧
    get_title_from_filename "a 1999".toList =
      { title := "a".toList, year := some 1999, season := none, episode := none } ∧
    "a".toList ≠ "a 1999".toList :=
  ⟨by decide, by decide, by decide⟩

/-- C3: a lookup on a stored key returns the decoded stored value with no
fetch and leaves the entry table unchanged; a lookup on an absent key
invokes the fetch exactly once, persists the encoded result under the
key and returns the fetched value (the decoded persisted value whenever
the encoding round-trips); and an entry, once present, survives every
further lookup, so all subsequent lookups with that key decode the same
stored representation without fetching. -/
theorem C3_cache_read_through {α : Type} (enc : Encoding α) (st : CacheState)
    (key : String) (func : Unit → FetchResult α) :
    (∀ v, lookupTab st.cache key = some v →
      (cache_get enc st key func).result = Except.ok (enc.decode v) ∧
      (cache_get enc st key func).fetches = 0 ∧
      (cache_get enc st key func).state.cache = st.cache) ∧
    (∀ a, lookupTab st.cache key = none → func () = FetchResult.ok a →
      (cache_get enc st key func).fetches = 1 ∧
      lookupTab (cache_get enc st key func).state.cache key = some (enc.encode a) ∧
      (cache_get enc st key func).result = Except.ok a ∧
      ((∀ x, enc.decode (enc.encode x) = x) →
        (cache_get enc st key func).result = Except.ok (enc.decode (enc.encode a)))) ∧
    (∀ (st' : CacheState) (k' : String) (f' : Unit → FetchResult α) (v : String),
      lookupTab st'.cache key = some v →
      lookupTab (cache_get enc st' k' f').state.cache key = some v) := by
  refine ⟨?_, ?_, ?_⟩
  · intro v hv
    simp [cache_get, hv]
  · intro a hmiss hok
    refine ⟨?_, ?_, ?_, ?_⟩
    · simp [cache_get, hmiss, hok]
    · simp [cache_get, hmiss, hok, lookupTab_upsert_self]
    · simp [cache_get, hmiss, hok]
    · intro hround
      simp [cache_get, hmiss, hok, hround]
  · intro st' k' f' v hv
    rcases hk : lookupTab st'.cache k' with _ | w
    · rcases hf : f' () with a | _
      · by_cases hkey : key = k'
        · rw [hkey] at hv
          rw [hv] at hk
          exact absurd hk (by simp)
        · simp only [cache_get, hk]
          rw [hf]
          simpa [lookupTab_upsert_ne st'.cache k' (enc.encode a) key hkey] using hv
      · simp only [cache_get, hk]
        rw [hf]
        exact hv
    · simp only [cache_get, hk]
      exact hv

/-- C3 witness: a concrete hit and a concrete miss with the identity
encoding on a one-entry store. -/
theorem C3_witness :
    ((cache_get { encode := id, decode := id }
        { cache := [("k", "v")], stats := [] } "k"
        (fun _ => FetchResult.ok "w")).result = Except.ok "v" ∧
      (cache_get { encode := id, decode := id }
        { cache := [("k", "v")], stats := [] } "k"
        (fun _ => FetchResult.ok "w")).fetches = 0 ∧
      (cache_get { encode := id, decode := id }
        { cache := [("k", "v")], stats := [] } "k"
        (fun _ => FetchResult.ok "w")).state.cache = [("k", "v")]) :=
  (C3_cache_read_through { encode := id, decode := id }
    { cache := [("k", "v")], stats := [] } "k" (fun _ => FetchResult.ok "w")).1 "v" rfl

/-- C4 amended: a lookup bumps the `num_query` row by 1 when that row
exists and otherwise changes nothing (option-map semantics of the SQL
UPDATE); `num_hit` is bumped the same way exactly on hits; on a failed
fetch nothing is committed, so the stats are fully unchanged; and from
the freshly initialised state the stats table stays empty forever. -/
theorem C4_stats_semantics {α : Type} (enc : Encoding α) (st : CacheState)
    (key : String) (func : Unit → FetchResult α) :
    ((lookupTab st.cache key).isSome = true →
      lookupTab (cache_get enc st key func).state.stats "num_query" =
        (lookupTab st.stats "num_query").map (fun n => n + 1) ∧
      lookupTab (cache_get enc st key func).state.stats "num_hit" =
        (lookupTab st.stats "num_hit").map (fun n => n + 1)) ∧
    (∀ a, lookupTab st.cache key = none → func () = FetchResult.ok a →
      lookupTab (cache_get enc st key func).state.stats "num_query" =
        (lookupTab st.stats "num_query").map (fun n => n + 1) ∧
      lookupTab (cache_get enc st key func).state.stats "num_hit" =
        lookupTab st.stats "num_hit") ∧
    (lookupTab st.cache key = none → func () = FetchResult.err →
      (cache_get enc st key func).state.stats = st.stats) ∧
    (cache_get enc initState key func).state.stats = [] := by
  refine ⟨?_, ?_, ?_, ?_⟩
  · intro hsome
    rcases hv : lookupTab st.cache key with _ | v
    · rw [hv] at hsome
      exact absurd hsome (by simp)
    · constructor
      · simp only [cache_get, hv]
        rw [lookupTab_bumpStat_ne _ "num_hit" "num_query" (by decide),
          lookupTab_bumpStat_self]
      · simp only [cache_get, hv]
        rw [lookupTab_bumpStat_self,
          lookupTab_bumpStat_ne _ "num_query" "num_hit" (by decide)]
  · intro a hmiss hok
    constructor
    · simp only [cache_get, hmiss]
      rw [hok]
      exact lookupTab_bumpStat_self st.stats "num_query"
    · simp only [cache_get, hmiss]
      rw [hok]
      exact lookupTab_bumpStat_ne _ "num_query" "num_hit" (by decide)
  · intro hmiss herr
    simp only [cache_get, hmiss]
    rw [herr]
  · rcases hf : func () with a | _
    · simp only [cache_get, initState]
      rw [hf]
      rfl
    · simp only [cache_get, initState]
      rw [hf]
      rfl

/-- C4 witness: on a store whose counters were seeded at 0, a miss bumps
`num_query` to 1 and leaves `num_hit` at 0. -/
theorem C4_witness :
    lookupTab (cache_get { encode := id, decode := id }
        { cache := [], stats := [("num_query", 0), ("num_hit", 0)] } "k"
        (fun _ => FetchResult.ok "v")).state.stats "num_query" =
      (lookupTab ({ cache := [], stats := [("num_query", 0), ("num_hit", 0)] } :
          CacheState).stats "num_query").map (fun n => n + 1) ∧
    lookupTab (cache_get { encode := id, decode := id }
        { cache := [], stats := [("num_query", 0), ("num_hit", 0)] } "k"
        (fun _ => FetchResult.ok "v")).state.stats "num_hit" =
      lookupTab ({ cache := [], stats := [("num_query", 0), ("num_hit", 0)] } :
          CacheState).stats "num_hit" :=
  (C4_stats_semantics { encode := id, decode := id }
    { cache := [], stats := [("num_query", 0), ("num_hit", 0)] } "k"
    (fun _ => FetchResult.ok "v")).2.1 "v" rfl rfl

/-- C5: when the key is absent and the fetch raises, the error propagates
to the caller, the committed state is exactly the pre-call state (nothing
is persisted under the key), and a subsequent lookup with the same key
invokes the fetch again. -/
theorem C5_fetch_failure {α : Type} (enc : Encoding α) (st : CacheState)
    (key : String) (func func2 : Unit → FetchResult α)
    (hmiss : lookupTab st.cache key = none) (herr : func () = FetchResult.err) :
    (cache_get enc st key func).result = Except.error () ∧
    (cache_get enc st key func).state = st ∧
    (cache_get enc st key func).fetches = 1 ∧
    (cache_get enc (cache_get enc st key func).state key func2).fetches = 1 := by
  have hstate : (cache_get enc st key func).state = st := by
    simp only [cache_get, hmiss]
    rw [herr]
  refine ⟨?_, hstate, ?_, ?_⟩
  · simp only [cache_get, hmiss]
    rw [herr]
  · simp only [cache_get, hmiss]
    rw [herr]
  · rw [hstate]
    rcases hf : func2 () with a | _
    · simp only [cache_get, hmiss]
      rw [hf]
    · simp only [cache_get, hmiss]
      rw [hf]

/-- C5 witness: a failing fetch on the empty store surfaces the error,
leaves the state untouched and is retried by the next lookup. -/
theorem C5_witness :
    (cache_get { encode := id, decode := id } initState "k"
        (fun _ => FetchResult.err)).result = Except.error () ∧
    (cache_get { encode := id, decode := id } initState "k"
        (fun _ => FetchResult.err)).state = initState ∧
    (cache_get { encode := id, decode := id } initState "k"
        (fun _ => FetchResult.err)).fetches = 1 ∧
    (cache_get { encode := id, decode := id }
        (cache_get { encode := id, decode := id } initState "k"
          (fun _ => FetchResult.err)).state "k"
        (fun _ => FetchResult.ok "v")).fetches = 1 :=
  C5_fetch_failure { encode := id, decode := id } initState "k"
    (fun _ => FetchResult.err) (fun _ => FetchResult.ok "v") rfl rfl

theorem DIGITS_length : DIGITS_TO_CHINESE_NUMBER.length = 20 := by decide

theorem DIGITS_get?_of_lt (n : Nat) (h : n < DIGITS_TO_CHINESE_NUMBER.length) :
    DIGITS_TO_CHINESE_NUMBER[n]? = some (DIGITS_TO_CHINESE_NUMBER.getD n []) := by
  rw [List.getD_eq_getElem?_getD, List.getElem?_eq_getElem h]
  rfl

theorem DIGITS_get?_isSome (n : Nat) :
    (DIGITS_TO_CHINESE_NUMBER.get? n).isSome = true ↔ n < 20 := by
  rw [List.get?_eq_getElem?]
  constructor
  · intro h
    by_contra hc
    rw [List.getElem?_eq_none (by rw [DIGITS_length]; omega)] at h
    simp at h
  · intro h
    rw [List.getElem?_eq_getElem (by rw [DIGITS_length]; omega)]
    rfl

theorem douRankLoop_season_some (year : Option Int) (n : Nat)
    (h : n < DIGITS_TO_CHINESE_NUMBER.length) (ss : List Subject) :
    ∀ dq : List Subject,
      douRankLoop year (some n) dq ss =
        some ((ss.filter (isFrontFor year n)).reverse ++ dq ++
          ss.filter (isBackFor year n)) := by
  obtain ⟨g, hget⟩ : ∃ g, DIGITS_TO_CHINESE_NUMBER[n]? = some g := by
    rcases hg : DIGITS_TO_CHINESE_NUMBER[n]? with _ | g
    · rw [List.getElem?_eq_getElem h] at hg
      cases hg
    · exact ⟨g, rfl⟩
  have hmark : markerFor n = '第' :: g ++ ['季'] := by
    unfold markerFor
    rw [List.getD_eq_getElem?_getD, hget]
    rfl
  induction ss with
  | nil => intro dq; simp [douRankLoop]
  | cons s rest ih =>
    intro dq
    by_cases hk : keepSubject year s = true
    · by_cases hf : subMem (markerFor n) s.title = true
      · have hf' : subMem ('第' :: g ++ ['季']) s.title = true := hmark ▸ hf
        have hstep : rankStep year (some n) dq s = some (s :: dq) := by
          simp only [rankStep, hk, eq_self_iff_true, if_true]
          rw [List.get?_eq_getElem?, hget]
          simp only [hf', eq_self_iff_true, if_true]
        simp only [douRankLoop, hstep]
        rw [ih (s :: dq)]
        simp [List.filter_cons, isFrontFor, isBackFor, hk, hf, List.append_assoc]
      · simp only [Bool.not_eq_true] at hf
        have hf' : subMem ('第' :: g ++ ['季']) s.title = false := hmark ▸ hf
        have hstep : rankStep year (some n) dq s = some (dq ++ [s]) := by
          simp only [rankStep, hk, eq_self_iff_true, if_true]
          rw [List.get?_eq_getElem?, hget]
          simp only [hf', Bool.false_eq_true, if_false]
        simp only [douRankLoop, hstep]
        rw [ih (dq ++ [s])]
        simp [List.filter_cons, isFrontFor, isBackFor, hk, hf, List.append_assoc]
    · simp only [Bool.not_eq_true] at hk
      have hstep : rankStep year (some n) dq s = some dq := by
        simp [rankStep, hk]
      simp only [douRankLoop, hstep]
      rw [ih dq]
      simp [List.filter_cons, isFrontFor, isBackFor, hk]

theorem douRankLoop_season_none (year : Option Int) (ss : List Subject) :
    ∀ dq : List Subject,
      douRankLoop year none dq ss = some (dq ++ ss.filter (keepSubject year)) := by
  induction ss with
  | nil => intro dq; simp [douRankLoop]
  | cons s rest ih =>
    intro dq
    by_cases hk : keepSubject year s = true
    · have hstep : rankStep year none dq s = some (dq ++ [s]) := by
        simp [rankStep, hk]
      simp only [douRankLoop, hstep]
      rw [ih (dq ++ [s])]
      simp [List.filter_cons, hk, List.append_assoc]
    · simp only [Bool.not_eq_true] at hk
      have hstep : rankStep year none dq s = some dq := by
        simp [rankStep, hk]
      simp only [douRankLoop, hstep]
      rw [ih dq]
      simp [List.filter_cons, hk]

theorem douRankLoop_index_err (year : Option Int) (n : Nat) (h20 : 20 ≤ n)
    (ss : List Subject) :
    ∀ dq : List Subject, (∃ s ∈ ss, keepSubject year s = true) →
      douRankLoop year (some n) dq ss = none := by
  induction ss with
  | nil =>
    intro dq hex
    obtain ⟨s, hmem, _⟩ := hex
    exact absurd hmem (by simp)
  | cons s rest ih =>
    intro dq hex
    by_cases hk : keepSubject year s = true
    · have hget : DIGITS_TO_CHINESE_NUMBER[n]? = none :=
        List.getElem?_eq_none (by rw [DIGITS_length]; omega)
      simp [douRankLoop, rankStep, hk, hget]
    · simp only [Bool.not_eq_true] at hk
      have hstep : rankStep year (some n) dq s = some dq := by
        simp [rankStep, hk]
      simp only [douRankLoop, hstep]
      apply ih dq
      obtain ⟨s', hmem, hkeep⟩ := hex
      rcases List.mem_cons.mp hmem with he | hr
      · rw [he] at hkeep
        rw [hkeep] at hk
        cases hk
      · exact ⟨s', hr, hkeep⟩

/-- C2 amended: with a season present (and its numeral in the table's
range), the ranked output is the year-filtered candidates whose title
carries the season marker in REVERSED input order, followed by the
remaining year-filtered candidates in preserved input order: the deque's
`appendleft` makes the front part anti-stable while the back part is
stable. -/
theorem C2_amended (year : Option Int) (n : Nat) (ss : List Subject)
    (h : n < DIGITS_TO_CHINESE_NUMBER.length) :
    douRank year (some n) ss =
      some ((ss.filter (isFrontFor year n)).reverse ++
        ss.filter (isBackFor year n)) := by
  have h0 := douRankLoop_season_some year n h ss []
  simpa [douRank] using h0

/-- C2 witness: a concrete two-candidate list with season 2. -/
theorem C2_witness :
    douRank none (some 2)
        [{ title := "x第二季".toList, year := none },
         { title := "y".toList, year := none }] =
      some (([{ title := "x第二季".toList, year := none },
              { title := "y".toList, year := none }].filter (isFrontFor none 2)).reverse ++
        [{ title := "x第二季".toList, year := none },
         { title := "y".toList, year := none }].filter (isBackFor none 2)) :=
  C2_amended none 2
    [{ title := "x第二季".toList, year := none },
     { title := "y".toList, year := none }] (by decide)

/-- C7: with no season, the ranked output is exactly the input filtered
by the keep predicate (order preserved), and the keep predicate drops a
candidate iff its year parses, the target year is present, and the two
differ by more than one (the window `subjectYear-1 ≤ year ≤ subjectYear+1`
being inclusive); candidates without a parseable year, or any candidate
when the target year is absent, are always kept. -/
theorem C7_year_filter (year : Option Int) (ss : List Subject) :
    douRank year none ss = some (ss.filter (keepSubject year)) ∧
    (∀ s : Subject, keepSubject year s = false ↔
      ∃ sy y : Int, subjectYearOf s = some sy ∧ year = some y ∧
        (y < sy - 1 ∨ sy + 1 < y)) := by
  constructor
  · have h0 := douRankLoop_season_none year ss []
    simpa [douRank] using h0
  · intro s
    rcases hs : subjectYearOf s with _ | sy
    · simp [keepSubject, hs]
    · rcases hy : year with _ | y
      · simp [keepSubject, hs]
      · simp only [keepSubject, hs]
        constructor
        · intro hfalse
          refine ⟨sy, y, rfl, rfl, ?_⟩
          have hnot : ¬ (sy - 1 ≤ y ∧ y ≤ sy + 1) := by
            simpa using hfalse
          omega
        · rintro ⟨sy', y', hsy', hy', hor⟩
          have e1 : sy = sy' := Option.some.inj hsy'
          have e2 : y = y' := Option.some.inj hy'
          simp only [decide_eq_false_iff_not]
          omega

/-- C10: the numeral table covers exactly 0..19 (length 20, an entry for
`n` iff `n < 20`); the ranking step succeeds for every candidate list
whenever the extracted season is at most 19; when the season is 20 or
more it raises an index error (aborting instead of returning a ranked
list) as soon as any candidate survives the year filter; and a filename
carrying `.s20` indeed extracts season 20. -/
theorem C10_numeral_table_bounds :
    DIGITS_TO_CHINESE_NUMBER.length = 20 ∧
    (∀ n : Nat, (DIGITS_TO_CHINESE_NUMBER.get? n).isSome = true ↔ n < 20) ∧
    (∀ (year : Option Int) (n : Nat) (ss : List Subject), n ≤ 19 →
      (douRank year (some n) ss).isSome = true) ∧
    (∀ (year : Option Int) (n : Nat) (ss : List Subject), 20 ≤ n →
      (∃ s ∈ ss, keepSubject year s = true) →
      douRank year (some n) ss = none) ∧
    (get_title_from_filename "x.s20".toList).season = some 20 := by
  refine ⟨DIGITS_length, DIGITS_get?_isSome, ?_, ?_, by decide⟩
  · intro year n ss hn
    have h0 := douRankLoop_season_some year n (by rw [DIGITS_length]; omega) ss []
    simp only [douRank, h0]
    rfl
  · intro year n ss h20 hex
    exact douRankLoop_index_err year n h20 ss [] hex

/-- C10 witness: one surviving candidate with season 20 aborts with the
index error. -/
theorem C10_witness :
    douRank none (some 20) [{ title := "t".toList, year := none }] = none :=
  C10_numeral_table_bounds.2.2.2.1 none 20 [{ title := "t".toList, year := none }]
    (by omega) ⟨{ title := "t".toList, year := none }, by decide, by decide⟩

/-- C9: FilenameNormalizer's output has a season whenever it has an
episode, and season and episode, when present, are non-negative (they
are parsed from bare digit runs, modelled as naturals). -/
theorem C9_episode_implies_season (f : List Char) :
    ((get_title_from_filename f).episode.isSome = true →
      (get_title_from_filename f).season.isSome = true) ∧
    (∀ n : Nat, (get_title_from_filename f).season = some n → 0 ≤ n) ∧
    (∀ n : Nat, (get_title_from_filename f).episode = some n → 0 ≤ n) := by
  refine ⟨?_, fun n _ => Nat.zero_le n, fun n _ => Nat.zero_le n⟩
  intro hep
  simp only [get_title_from_filename, episodeOf, seasonOf] at hep ⊢
  rcases hse : seSearch f with _ | x
  · rw [hse] at hep
    simp at hep
  · simp [hse]

/-- C9 witness: a filename with an episode marker. -/
theorem C9_witness :
    (get_title_from_filename "t.s1e2".toList).season.isSome = true :=
  (C9_episode_implies_season "t.s1e2".toList).1 (by decide)

/-- C1 amended: the returned year is exactly the raw parse of the last
token (attempted only when more than one token remains), with no range
restriction on the returned value; the 1900..2100 check only governs
whether the last token is dropped from the title, so an out-of-range
parse is kept in the title while still being returned as year; with at
most one token the year is absent. -/
theorem C1_year_semantics (f : List Char) :
    (get_title_from_filename f).year = rawYear f ∧
    (∀ y : Int, rawYear f = some y ↔
      (1 < (tokensOf f).length ∧ ((tokensOf f).getLast?).bind pyInt = some y)) ∧
    (∀ y : Int, (get_title_from_filename f).year = some y →
      ((1900 ≤ y ∧ y ≤ 2100) →
        (get_title_from_filename f).title = joinSep ' ' (tokensOf f).dropLast) ∧
      (¬ (1900 ≤ y ∧ y ≤ 2100) →
        (get_title_from_filename f).title = joinSep ' ' (tokensOf f))) ∧
    ((tokensOf f).length ≤ 1 → (get_title_from_filename f).year = none) := by
  refine ⟨rfl, ?_, ?_, ?_⟩
  · intro y
    unfold rawYear
    by_cases hl : 1 < (tokensOf f).length
    · simp [hl]
    · simp [hl]
  · intro y hy
    simp only [get_title_from_filename] at hy
    constructor
    · intro hin
      simp only [get_title_from_filename]
      unfold keptTokens
      rw [hy]
      exact congrArg (joinSep ' ') (if_pos hin)
    · intro hout
      simp only [get_title_from_filename]
      unfold keptTokens
      rw [hy]
      exact congrArg (joinSep ' ') (if_neg hout)
  · intro hle
    simp only [get_title_from_filename]
    unfold rawYear
    rw [if_neg (by omega)]

/-- C1 witness: `bar.5000` parses an out-of-range year which stays in
the title. -/
theorem C1_witness :
    (get_title_from_filename "bar.5000".toList).title =
      joinSep ' ' (tokensOf "bar.5000".toList) :=
  ((C1_year_semantics "bar.5000".toList).2.2.1 5000 (by decide)).2 (by decide)

theorem charOfNat_toNat (n : Nat) (h : n < 55296) : (Char.ofNat n).toNat = n := by
  have hv : n.isValidChar := Or.inl h
  simp [Char.ofNat, hv, Char.ofNatAux, Char.toNat, UInt32.ofNatCore, UInt32.toNat,
    BitVec.toNat_ofNatLt]

theorem asciiLowerChar_idem (c : Char) :
    asciiLowerChar (asciiLowerChar c) = asciiLowerChar c := by
  unfold asciiLowerChar
  split
  · next h =>
    obtain ⟨h1, h2⟩ := h
    have hA : (65 : Nat) ≤ c.toNat := h1
    have hZ : c.toNat ≤ 90 := h2
    have hv : (Char.ofNat (c.toNat + 32)).toNat = c.toNat + 32 :=
      charOfNat_toNat _ (by omega)
    rw [if_neg]
    intro hcon
    obtain ⟨g1, g2⟩ := hcon
    have e1 : (65 : Nat) ≤ (Char.ofNat (c.toNat + 32)).toNat := g1
    have e2 : (Char.ofNat (c.toNat + 32)).toNat ≤ 90 := g2
    omega
  · rfl

theorem isPySpace_ne_space {c : Char} (h : isPySpace c = false) : c ≠ ' ' := by
  intro he
  rw [he] at h
  simp [isPySpace] at h

theorem pySplitAux_tokens (s : List Char) :
    ∀ acc : List Char, (∀ c ∈ acc, isPySpace c = false) →
      ∀ t ∈ pySplitAux s acc,
        t ≠ [] ∧ ∀ c ∈ t, isPySpace c = false ∧ (c ∈ s ∨ c ∈ acc) := by
  induction s with
  | nil =>
    intro acc hacc t ht
    rcases acc with _ | ⟨a, as⟩
    · simp [pySplitAux] at ht
    · simp only [pySplitAux] at ht
      have hteq : t = (a :: as).reverse := by simpa using ht
      subst hteq
      refine ⟨by simp, fun c hc => ?_⟩
      have hc' : c ∈ a :: as := List.mem_reverse.mp hc
      exact ⟨hacc c hc', Or.inr hc'⟩
  | cons c0 cs ih =>
    intro acc hacc t ht
    by_cases hc0 : isPySpace c0 = true
    · rcases acc with _ | ⟨a, as⟩
      · simp only [pySplitAux, hc0, if_true] at ht
        obtain ⟨hne, hch⟩ := ih [] (by simp) t ht
        refine ⟨hne, fun c hc => ?_⟩
        obtain ⟨hsp, hm | hm⟩ := hch c hc
        · exact ⟨hsp, Or.inl (List.mem_cons_of_mem _ hm)⟩
        · exact absurd hm (List.not_mem_nil c)
      · simp only [pySplitAux, hc0, if_true] at ht
        rcases List.mem_cons.mp ht with he | hr
        · subst he
          refine ⟨by simp, fun c hc => ?_⟩
          have hc' : c ∈ a :: as := List.mem_reverse.mp hc
          exact ⟨hacc c hc', Or.inr hc'⟩
        · obtain ⟨hne, hch⟩ := ih [] (by simp) t hr
          refine ⟨hne, fun c hc => ?_⟩
          obtain ⟨hsp, hm | hm⟩ := hch c hc
          · exact ⟨hsp, Or.inl (List.mem_cons_of_mem _ hm)⟩
          · exact absurd hm (List.not_mem_nil c)
    · simp only [Bool.not_eq_true] at hc0
      simp only [pySplitAux, hc0, Bool.false_eq_true, if_false] at ht
      obtain ⟨hne, hch⟩ := ih (c0 :: acc)
        (by
          intro c hc
          rcases List.mem_cons.mp hc with he | hm
          · rw [he]; exact hc0
          · exact hacc c hm) t ht
      refine ⟨hne, fun c hc => ?_⟩
      obtain ⟨hsp, hm | hm⟩ := hch c hc
      · exact ⟨hsp, Or.inl (List.mem_cons_of_mem _ hm)⟩
      · rcases List.mem_cons.mp hm with he | hm2
        · refine ⟨hsp, Or.inl ?_⟩
          rw [he]
          exact List.mem_cons_self _ _
        · exact ⟨hacc c hm2, Or.inr hm2⟩

theorem pySplitAux_all_space (run : List Char)
    (hrun : ∀ c ∈ run, isPySpace c = true) :
    ∀ acc : List Char, pySplitAux run acc = pySplitAux [] acc := by
  induction run with
  | nil => intro acc; rfl
  | cons c run' ih =>
    intro acc
    have hc : isPySpace c = true := hrun c (List.mem_cons_self _ _)
    have hrun' : ∀ x ∈ run', isPySpace x = true :=
      fun x hx => hrun x (List.mem_cons_of_mem _ hx)
    rcases acc with _ | ⟨a, as⟩
    · simp only [pySplitAux, hc, if_true]
      rw [ih hrun' []]
      rfl
    · simp only [pySplitAux, hc, if_true]
      rw [ih hrun' []]
      rfl

theorem pySplitAux_append_space (run : List Char)
    (hrun : ∀ c ∈ run, isPySpace c = true) (s : List Char) :
    ∀ acc : List Char, pySplitAux (s ++ run) acc = pySplitAux s acc := by
  induction s with
  | nil =>
    intro acc
    simpa using pySplitAux_all_space run hrun acc
  | cons c cs ih =>
    intro acc
    by_cases hc : isPySpace c = true
    · rcases acc with _ | ⟨a, as⟩
      · simp only [List.cons_append, pySplitAux, hc, if_true, List.append_eq]
        exact ih []
      · simp only [List.cons_append, pySplitAux, hc, if_true, List.append_eq]
        rw [ih []]
    · simp only [Bool.not_eq_true] at hc
      simp only [List.cons_append, pySplitAux, hc, Bool.false_eq_true, if_false,
        List.append_eq]
      exact ih (c :: acc)

theorem pySplit_dropWhile (s : List Char) :
    pySplit (s.dropWhile isPySpace) = pySplit s := by
  induction s with
  | nil => rfl
  | cons c cs ih =>
    by_cases hc : isPySpace c = true
    · rw [List.dropWhile_cons_of_pos hc]
      rw [ih]
      show pySplit cs = pySplitAux (c :: cs) []
      simp only [pySplitAux, hc, if_true]
      rfl
    · simp only [Bool.not_eq_true] at hc
      rw [List.dropWhile_cons_of_neg (by simp [hc])]

theorem pySplit_pyStrip (s : List Char) : pySplit (pyStrip s) = pySplit s := by
  have hfront := pySplit_dropWhile s
  rw [← hfront]
  have hdecomp : s.dropWhile isPySpace =
      pyStrip s ++ ((s.dropWhile isPySpace).reverse.takeWhile isPySpace).reverse := by
    unfold pyStrip
    calc s.dropWhile isPySpace
        = (s.dropWhile isPySpace).reverse.reverse := (List.reverse_reverse _).symm
      _ = (((s.dropWhile isPySpace).reverse.takeWhile isPySpace) ++
            ((s.dropWhile isPySpace).reverse.dropWhile isPySpace)).reverse := by
          rw [List.takeWhile_append_dropWhile]
      _ = ((s.dropWhile isPySpace).reverse.dropWhile isPySpace).reverse ++
            ((s.dropWhile isPySpace).reverse.takeWhile isPySpace).reverse := by
          rw [List.reverse_append]
  rw [hdecomp]
  unfold pySplit
  rw [pySplitAux_append_space _ (by
    intro c hc
    exact List.mem_takeWhile_imp (List.mem_reverse.mp hc)) _ []]

theorem joinSep_map (g : Char → Char) (sep : Char) (ts : List (List Char)) :
    (joinSep sep ts).map g = joinSep (g sep) (ts.map (List.map g)) := by
  induction ts with
  | nil => rfl
  | cons t ts ih =>
    rcases ts with _ | ⟨t2, ts'⟩
    · rfl
    · show (t ++ sep :: joinSep sep (t2 :: ts')).map g =
        t.map g ++ g sep :: joinSep (g sep) ((t2 :: ts').map (List.map g))
      rw [List.map_append, List.map_cons, ih]

theorem map_fix {g : Char → Char} {l : List Char} (h : ∀ c ∈ l, g c = c) :
    l.map g = l := by
  calc l.map g = l.map id := List.map_congr_left h
    _ = l := l.map_id

theorem joinSep_map_sep (g : Char → Char) (a b : Char) (T : List (List Char))
    (hsep : g a = b) (h : ∀ t ∈ T, ∀ c ∈ t, g c = c) :
    (joinSep a T).map g = joinSep b T := by
  rw [joinSep_map, hsep]
  congr 1
  calc T.map (List.map g) = T.map id :=
        List.map_congr_left (fun t ht => map_fix (h t ht))
    _ = T := T.map_id

theorem pySplitAux_token (tok : List Char) :
    (∀ c ∈ tok, isPySpace c = false) →
    ∀ (s acc : List Char),
      pySplitAux (tok ++ s) acc = pySplitAux s (tok.reverse ++ acc) := by
  induction tok with
  | nil => intro _ s acc; simp
  | cons c tok' ih =>
    intro htok s acc
    have hc : isPySpace c = false := htok c (List.mem_cons_self _ _)
    simp only [List.cons_append, pySplitAux, hc, Bool.false_eq_true, if_false,
      List.append_eq]
    rw [ih (fun x hx => htok x (List.mem_cons_of_mem _ hx)) s (c :: acc)]
    congr 1
    simp

theorem pySplit_joinSep (T : List (List Char))
    (h : ∀ t ∈ T, t ≠ [] ∧ ∀ c ∈ t, isPySpace c = false) :
    pySplit (joinSep ' ' T) = T := by
  induction T with
  | nil => rfl
  | cons t ts ih =>
    obtain ⟨htne, htch⟩ := h t (List.mem_cons_self _ _)
    obtain ⟨a, as, hrev⟩ : ∃ a as, t.reverse = a :: as := by
      rcases hr : t.reverse with _ | ⟨a, as⟩
      · exact absurd (by simpa using congrArg List.reverse hr) htne
      · exact ⟨a, as, rfl⟩
    rcases ts with _ | ⟨t2, ts'⟩
    · show pySplitAux t [] = [t]
      have := pySplitAux_token t htch [] []
      rw [List.append_nil] at this
      rw [this, List.append_nil, hrev]
      show [(a :: as).reverse] = [t]
      rw [← hrev, List.reverse_reverse]
    · show pySplitAux (t ++ ' ' :: joinSep ' ' (t2 :: ts')) [] = t :: t2 :: ts'
      rw [pySplitAux_token t htch (' ' :: joinSep ' ' (t2 :: ts')) []]
      rw [List.append_nil, hrev]
      have hsp : isPySpace ' ' = true := by decide
      simp only [pySplitAux, hsp, if_true]
      have htail : pySplitAux (joinSep ' ' (t2 :: ts')) [] = t2 :: ts' :=
        ih (fun x hx => h x (List.mem_cons_of_mem _ hx))
      rw [htail, ← hrev, List.reverse_reverse]

theorem foldl_min_none (name : List Char) (L : List (List Char))
    (h : ∀ suf ∈ L, findSub suf name = none) :
    ∀ e : Nat,
      L.foldl
        (fun e suf =>
          match findSub suf name with
          | some idx => min e idx
          | none => e) e = e := by
  induction L with
  | nil => intro e; rfl
  | cons suf L' ih =>
    intro e
    rw [List.foldl_cons]
    have hs := h suf (List.mem_cons_self _ _)
    have step :
        (match findSub suf name with
          | some idx => min e idx
          | none => e) = e := by
      rw [hs]
    rw [step]
    exact ih (fun x hx => h x (List.mem_cons_of_mem _ hx)) e

theorem tokensOf_chars (f : List Char) :
    ∀ t ∈ tokensOf f, t ≠ [] ∧ ∀ c ∈ t,
      isPySpace c = false ∧ c ≠ '.' ∧ asciiLowerChar c = c := by
  intro t ht
  unfold tokensOf at ht
  obtain ⟨hne, hchars⟩ :=
    pySplitAux_tokens _ [] (by simp) t ht
  refine ⟨hne, fun c hc => ?_⟩
  obtain ⟨hspace, hmem | hmem⟩ := hchars c hc
  swap
  · exact absurd hmem (List.not_mem_nil c)
  have hmem2 : c ∈ ((normName f).take (truncEnd f)).map dotToSpace := by
    unfold pyStrip at hmem
    have h1 := List.mem_reverse.mp hmem
    have h2 := (List.dropWhile_sublist _).subset h1
    have h3 := List.mem_reverse.mp h2
    exact (List.dropWhile_sublist _).subset h3
  obtain ⟨d, hd, hdc⟩ := List.mem_map.mp hmem2
  have hdname : d ∈ normName f := List.mem_of_mem_take hd
  obtain ⟨e, he, hed⟩ := List.mem_map.mp hdname
  obtain ⟨x, hx, hxe⟩ := List.mem_map.mp he
  by_cases hdot : d = '.'
  · rw [hdot] at hdc
    have : c = ' ' := by simpa [dotToSpace] using hdc.symm
    exact absurd this (isPySpace_ne_space hspace)
  · have hcd : c = d := by
      rw [← hdc]
      simp [dotToSpace, hdot]
    by_cases hsp : e = ' '
    · rw [hsp] at hed
      have : d = '.' := by simpa [spaceToDot] using hed.symm
      exact absurd this hdot
    · have hde : d = e := by
        rw [← hed]
        simp [spaceToDot, hsp]
      have hce : c = asciiLowerChar x := by
        rw [hcd, hde, ← hxe]
      refine ⟨hspace, by rw [hcd]; exact hdot, ?_⟩
      rw [hce]
      exact asciiLowerChar_idem x

theorem keptTokens_subset_tokensOf (f : List Char) :
    ∀ t ∈ keptTokens f, t ∈ tokensOf f := by
  intro t ht
  unfold keptTokens at ht
  rcases hy : rawYear f with _ | y
  · rw [hy] at ht
    exact ht
  · rw [hy] at ht
    by_cases hin : 1900 ≤ y ∧ y ≤ 2100
    · have : t ∈ (tokensOf f).dropLast := by
        have hred :
            (match some y with
              | some y => if 1900 ≤ y ∧ y ≤ 2100 then (tokensOf f).dropLast else tokensOf f
              | none => tokensOf f) = (tokensOf f).dropLast := if_pos hin
        rw [hred] at ht
        exact ht
      exact (List.dropLast_sublist (tokensOf f)).subset this
    · have hred :
          (match some y with
            | some y => if 1900 ≤ y ∧ y ≤ 2100 then (tokensOf f).dropLast else tokensOf f
            | none => tokensOf f) = tokensOf f := if_neg hin
      rw [hred] at ht
      exact ht

/-- C6 amended: re-running FilenameNormalizer on its own title yields the
same title with season and episode absent, PROVIDED the dot-rejoined
title contains no season/episode marker and no suffix-table token and
its last token (when more than one remains) does not parse as an
integer; without those provisos the claim fails (see the counterexample:
re-joining can expose a fresh trailing year, marker or suffix token, and
even an out-of-range parse resurfaces as a present year). -/
theorem C6_title_idempotent (f : List Char)
    (h1 : searchSE (joinSep '.' (keptTokens f)) 0 = none)
    (h2 : ∀ suf ∈ CLEAR_SUFFIX, findSub suf (joinSep '.' (keptTokens f)) = none)
    (h3 : 1 < (keptTokens f).length → ((keptTokens f).getLast?).bind pyInt = none) :
    get_title_from_filename (get_title_from_filename f).title =
      { title := (get_title_from_filename f).title, year := none,
        season := none, episode := none } := by
  have hkept : ∀ t ∈ keptTokens f, t ≠ [] ∧ ∀ c ∈ t,
      isPySpace c = false ∧ c ≠ '.' ∧ asciiLowerChar c = c :=
    fun t ht => tokensOf_chars f t (keptTokens_subset_tokensOf f t ht)
  set T := keptTokens f with hT
  have hnorm : normName (joinSep ' ' T) = joinSep '.' T := by
    unfold normName
    rw [joinSep_map_sep asciiLowerChar ' ' ' ' T (by decide)
      (fun t ht c hc => ((hkept t ht).2 c hc).2.2)]
    rw [joinSep_map_sep spaceToDot ' ' '.' T (by decide)
      (fun t ht c hc => by
        simp [spaceToDot, isPySpace_ne_space ((hkept t ht).2 c hc).1])]
  have hse : seSearch (joinSep ' ' T) = none := by
    unfold seSearch
    rw [hnorm]
    exact h1
  have hcut : truncEnd (joinSep ' ' T) = (joinSep '.' T).length := by
    unfold truncEnd
    rw [hnorm]
    have hbase : cutAfterRegex (joinSep ' ' T) = (joinSep '.' T).length := by
      unfold cutAfterRegex
      rw [hse, hnorm]
    rw [hbase]
    exact foldl_min_none (joinSep '.' T) CLEAR_SUFFIX h2 _
  have htok : tokensOf (joinSep ' ' T) = T := by
    unfold tokensOf
    rw [hnorm, hcut, List.take_length]
    rw [joinSep_map_sep dotToSpace '.' ' ' T (by decide)
      (fun t ht c hc => by
        simp [dotToSpace, ((hkept t ht).2 c hc).2.1])]
    rw [show pySplit (pyStrip (joinSep ' ' T)) = pySplit (joinSep ' ' T) from
      pySplit_pyStrip _]
    exact pySplit_joinSep T (fun t ht => ⟨(hkept t ht).1,
      fun c hc => ((hkept t ht).2 c hc).1⟩)
  have hyr : rawYear (joinSep ' ' T) = none := by
    unfold rawYear
    rw [htok]
    by_cases hl : 1 < T.length
    · rw [if_pos hl]
      exact h3 hl
    · rw [if_neg hl]
  have hkt : keptTokens (joinSep ' ' T) = T := by
    unfold keptTokens
    rw [hyr]
    exact htok
  have hsea : seasonOf (joinSep ' ' T) = none := by
    simp [seasonOf, hse]
  have hepi : episodeOf (joinSep ' ' T) = none := by
    simp [episodeOf, hse]
  have httl : (get_title_from_filename f).title = joinSep ' ' T := rfl
  rw [httl]
  simp only [get_title_from_filename]
  rw [hkt, hyr, hsea, hepi]

/-- C6 witness: a plain one-token title is a fixed point. -/
theorem C6_witness :
    get_title_from_filename (get_title_from_filename "abc".toList).title =
      { title := (get_title_from_filename "abc".toList).title, year := none,
        season := none, episode := none } :=
  C6_title_idempotent "abc".toList (by decide) (by decide) (by decide)

end Scraper
